import Mathlib

/-!
Verification of the categorical population index of the hiv_malawi
repository (src/src/categorical-environment.h and the collaborators it
declares).  Pure functions that appear inline in the header
(`ComputeCompoundIndex`, `Clear`, the getters) are translated directly
from that source; method bodies that live in a translation unit not
shipped under src/ (the constructor, `Update`, `AddAgentToIndex`,
`GetRamdomAgentFromIndex`, `AgentVector::GetRandomAgent`, the setters,
the mixing-table rebuild and the partner sampler) are modelled from the
specification, as announced in each doc comment.  C++ mutation is
rendered as explicit state passing, `size_t` as `Nat`, `int` as `Int`,
`float` as `ℚ`, and failure (assert / error condition) as `Except`.
-/

namespace bdm

/-- Error taxonomy of the subsystem (spec §7): programming errors on
out-of-range compound-key components, and the recoverable sampling
conditions. -/
inductive EnvError where
  | OutOfRange
  | EmptyBucket
  | NoEligiblePartner
  | DegenerateMixingRow
deriving DecidableEq, Repr

/-- Modelled from the spec (§3, §9): an `AgentPointer<Person>` is a
non-owning handle into the externally owned population store, rendered
as the agent's row index in that store. -/
abbrev AgentPointer := Nat

/-- The agent data carried by `Person` (src/src/person.h, lines 35-46):
state, age (`float`, rendered as `ℚ`), sex, location, socio-behavioural
factor, biomedical factor.  Location and the socio-behavioural factor
are category indices (C++ `int` cast to `size_t` at every use in the
index), rendered as `Nat`. -/
structure Person where
  state_ : Int
  age_ : ℚ
  sex_ : Int
  location_ : Nat
  social_behaviour_factor_ : Nat
  biomedical_factor_ : Int
deriving DecidableEq, Repr

/-- Modelled from the spec: the sex criterion of partner eligibility
selects female agents (src/src/categorical-environment.h lines 53-55);
the numeric encoding of `Sex::kFemale` lives in datatypes.h, which is
not under src/, so a fixed representative value is used — no property
below depends on the value. -/
def kFemale : Int := 1

/-- The Bucket: a wrapper around a vector of agent pointers
(src/src/categorical-environment.h lines 34-51). -/
structure AgentVector where
  agents_ : List AgentPointer
deriving DecidableEq, Repr

/-- Translation of `AgentVector::GetNumAgents`
(src/src/categorical-environment.h line 41). -/
def AgentVector.GetNumAgents (v : AgentVector) : Nat :=
  v.agents_.length

/-- Modelled from the spec: `AgentVector::AddAgent`
(src/src/categorical-environment.h line 47; body not under src/)
appends the pointer to the vector. -/
def AgentVector.AddAgent (v : AgentVector) (agent : AgentPointer) : AgentVector :=
  ⟨v.agents_ ++ [agent]⟩

/-- Modelled from the spec: `AgentVector::Clear`
(src/src/categorical-environment.h line 50; body not under src/)
deletes the entries and resizes the vector to 0. -/
def AgentVector.Clear (_ : AgentVector) : AgentVector :=
  ⟨[]⟩

/-- Modelled from the spec (§4.1, §7): `AgentVector::GetRandomAgent`
(src/src/categorical-environment.h lines 43-44; body not under src/)
fails with the EmptyBucket condition on an empty vector and otherwise
returns the entry at a uniformly drawn position; the uniform source is
rendered as an explicit draw reduced modulo the size. -/
def AgentVector.GetRandomAgent (v : AgentVector) (draw : Nat) :
    Except EnvError AgentPointer :=
  if h : v.agents_.length = 0 then
    .error .EmptyBucket
  else
    .ok (v.agents_.get ⟨draw % v.agents_.length, Nat.mod_lt _ (Nat.pos_of_ne_zero h)⟩)

/-- State of the `CategoricalEnvironment`
(src/src/categorical-environment.h lines 56-76): eligibility window,
the three dimensions, the flat bucket array, the cumulative
mate-location distribution and the observed mate-location
frequencies. -/
structure CategoricalEnvironment where
  min_age_ : Int
  max_age_ : Int
  no_age_categories_ : Nat
  no_locations_ : Nat
  no_sociobehavioural_categories_ : Nat
  female_agents_ : List AgentVector
  mate_location_distribution_ : List (List ℚ)
  mate_location_frequencies_ : List (List ℚ)
deriving DecidableEq, Repr

/-- Modelled from the spec: the constructor
(src/src/categorical-environment.h lines 78-83; body not under src/)
stores the window and the dimensions, allocates `A·L·S` empty buckets
and the two `L×L` zero matrices. -/
def mkCategoricalEnvironment (min_age max_age : Int)
    (no_age_categories no_locations no_sociobehavioural_categories : Nat) :
    CategoricalEnvironment :=
  { min_age_ := min_age
    max_age_ := max_age
    no_age_categories_ := no_age_categories
    no_locations_ := no_locations
    no_sociobehavioural_categories_ := no_sociobehavioural_categories
    female_agents_ :=
      List.replicate (no_age_categories * no_locations * no_sociobehavioural_categories)
        (AgentVector.mk [])
    mate_location_distribution_ :=
      List.replicate no_locations (List.replicate no_locations 0)
    mate_location_frequencies_ :=
      List.replicate no_locations (List.replicate no_locations 0) }

/-- Translation of `CategoricalEnvironment::ComputeCompoundIndex`
(src/src/categorical-environment.h lines 95-101): the three asserts are
rendered as the out-of-range failure branch, the in-range result is
`age + A·location + (A·L)·sb`. -/
def ComputeCompoundIndex (env : CategoricalEnvironment)
    (location age sb : Nat) : Except EnvError Nat :=
  if location < env.no_locations_ ∧ age < env.no_age_categories_ ∧
      sb < env.no_sociobehavioural_categories_ then
    .ok (age + env.no_age_categories_ * location +
      (env.no_age_categories_ * env.no_locations_) * sb)
  else
    .error .OutOfRange

/-- Translation of `CategoricalEnvironment::Clear`
(src/src/categorical-environment.h line 141): the body is `{ ; }`, a
no-op, so the state is returned unchanged. -/
def CategoricalEnvironment.Clear (env : CategoricalEnvironment) :
    CategoricalEnvironment :=
  env

/-- Translation of `CategoricalEnvironment::GetMinAge`
(src/src/categorical-environment.h line 134). -/
def GetMinAge (env : CategoricalEnvironment) : Int :=
  env.min_age_

/-- Translation of `CategoricalEnvironment::GetMaxAge`
(src/src/categorical-environment.h line 135). -/
def GetMaxAge (env : CategoricalEnvironment) : Int :=
  env.max_age_

/-- Modelled from the spec: `SetMinAge`
(src/src/categorical-environment.h line 130, "Setter functions to
access private member variables"; body not under src/; spec §6 exposes
"setters for the eligibility window"). -/
def SetMinAge (env : CategoricalEnvironment) (min_age : Int) :
    CategoricalEnvironment :=
  { env with min_age_ := min_age }

/-- Modelled from the spec: `SetMaxAge`
(src/src/categorical-environment.h line 131; body not under src/). -/
def SetMaxAge (env : CategoricalEnvironment) (max_age : Int) :
    CategoricalEnvironment :=
  { env with max_age_ := max_age }

/-- Generic in-place update of one list entry (renders
`vector[i] = f(vector[i])`); out-of-bounds positions are untouched. -/
def listModify {α : Type} (l : List α) (i : Nat) (f : α → α) : List α :=
  match l, i with
  | [], _ => []
  | x :: xs, 0 => f x :: xs
  | x :: xs, Nat.succ n => x :: listModify xs n f

/-- Modelled from the spec (§4.1): the partner-eligibility predicate —
sex criterion and age within the window `[min_age, max_age]`
(src/src/categorical-environment.h lines 68-69, 112-114). -/
def eligibleB (mn mx : Int) (p : Person) : Bool :=
  (p.sex_ == kFemale) && decide ((mn : ℚ) ≤ p.age_) && decide (p.age_ ≤ (mx : ℚ))

/-- The compound key of an agent category, as computed by the in-range
branch of `ComputeCompoundIndex`: `age + A·location + A·L·sb`. -/
def keyOf (A L : Nat) (band : ℚ → Nat) (p : Person) : Nat :=
  band p.age_ + A * p.location_ + A * L * p.social_behaviour_factor_

/-- Modelled from the spec: `AddAgentToIndex`
(src/src/categorical-environment.h lines 103-105; body not under src/)
appends the agent pointer to the bucket at the compound key of
(location, age, sb); an out-of-range component is the same programming
error as in `ComputeCompoundIndex`. -/
def AddAgentToIndex (env : CategoricalEnvironment) (agent : AgentPointer)
    (location age sb : Nat) : Except EnvError CategoricalEnvironment :=
  match ComputeCompoundIndex env location age sb with
  | .error e => .error e
  | .ok i =>
      .ok { env with
              female_agents_ := listModify env.female_agents_ i (·.AddAgent agent) }

/-- The population rows paired with their store indices, which serve as
the non-owning agent handles (spec §9: handles are population-store row
identifiers). -/
def enumAgents : Nat → List Person → List (Nat × Person)
  | _, [] => []
  | k, p :: ps => (k, p) :: enumAgents (k + 1) ps

/-- Modelled from the spec (§4.1): the classification scan of the
rebuild — one pass over the population, appending every eligible
agent's handle to the bucket of its compound key. -/
def classify (band : ℚ → Nat) :
    CategoricalEnvironment → List (Nat × Person) →
    Except EnvError CategoricalEnvironment
  | env, [] => .ok env
  | env, (h, p) :: rest =>
    if eligibleB env.min_age_ env.max_age_ p then
      match AddAgentToIndex env h p.location_ (band p.age_)
          p.social_behaviour_factor_ with
      | .ok e2 => classify band e2 rest
      | .error err => .error err
    else
      classify band env rest

/-- Running sum of a list from a given accumulator. -/
def cumsumAux (acc : ℚ) : List ℚ → List ℚ
  | [] => []
  | x :: xs => (acc + x) :: cumsumAux (acc + x) xs

/-- Cumulative form of a weight row (spec §4.2: "convert to a
cumulative sequence via running sum"). -/
def cumsum (l : List ℚ) : List ℚ :=
  cumsumAux 0 l

/-- Weights with the columns of empty locations zeroed out
(spec §4.2: "zero out the weight for any column j where
per_location_counts[j] == 0"). -/
def zeroEmpty (w : List ℚ) (counts : List Nat) : List ℚ :=
  List.zipWith (fun wi c => if c = 0 then (0 : ℚ) else wi) w counts

/-- The uniform fallback weights over locations with a nonzero count
(spec §4.2). -/
def uniformViable (counts : List Nat) : List ℚ :=
  counts.map (fun c => if c = 0 then (0 : ℚ) else 1)

/-- Normalization-then-cumulation of a weight row (spec §4.2:
"normalize remaining weights to sum to 1; convert to a cumulative
sequence via running sum"); a row whose weights sum to zero is left as
it is (the degenerate case). -/
def normCum (v : List ℚ) : List ℚ :=
  if v.sum = 0 then v else cumsum (v.map (fun x => x / v.sum))

/-- The weight row actually used for a mixing row: the policy weights
with empty-location columns zeroed, or — when that zeroes the whole
row — the uniform fallback over non-empty locations (spec §4.2). -/
def selectWeights (w : List ℚ) (counts : List Nat) : List ℚ :=
  if (zeroEmpty w counts).sum = 0 then uniformViable counts else zeroEmpty w counts

/-- Modelled from the spec (§4.2): one row of the Mixing Table rebuild —
zero out columns with empty locations, fall back to the uniform
distribution over non-empty locations when every weight vanished,
normalize, and take the running sum; when the whole population is empty
the row is left degenerate (all zeros). -/
def rowRebuild (w : List ℚ) (counts : List Nat) : List ℚ :=
  normCum (selectWeights w counts)

/-- Number of eligible agents currently bucketed at location `j`,
summed over all age bands and socio-behavioural categories of the flat
bucket array (spec §4.1 CountAt aggregated per location). -/
def countLocIn (bs : List AgentVector) (A L S : Nat) (j : Nat) : Nat :=
  ((List.range A).map (fun a =>
    ((List.range S).map (fun s =>
      (bs.getD (a + A * j + A * L * s) (AgentVector.mk [])).GetNumAgents)).sum)).sum

/-- Modelled from the spec (§4.1, §4.2): `CategoricalEnvironment::Update`
(src/src/categorical-environment.h lines 85-91; body not under src/) —
the once-per-step rebuild: clear every bucket, classify the full
population in one scan, then recompute the cumulative mate-location
distribution from the static policy matrix and the fresh per-location
eligible counts.  The observed mate-location frequencies are not reset
(spec §3: reset only explicitly, never by the rebuild).  The age-band
classifier `band` is a parameter because the spec fixes no formula for
it. -/
def Update (env : CategoricalEnvironment) (band : ℚ → Nat)
    (policy : List (List ℚ)) (pop : List Person) :
    Except EnvError CategoricalEnvironment :=
  let cleared :=
    { env with
        female_agents_ :=
          List.replicate (env.no_age_categories_ * env.no_locations_ *
            env.no_sociobehavioural_categories_) (AgentVector.mk []) }
  match classify band cleared (enumAgents 0 pop) with
  | .error e => .error e
  | .ok filled =>
      let counts := (List.range env.no_locations_).map (fun j =>
        countLocIn filled.female_agents_ env.no_age_categories_
          env.no_locations_ env.no_sociobehavioural_categories_ j)
      .ok { filled with
              mate_location_distribution_ :=
                (List.range env.no_locations_).map (fun i =>
                  rowRebuild (policy.getD i []) counts) }

/-- Modelled from the spec (§4.1): `GetRamdomAgentFromIndex`
(src/src/categorical-environment.h lines 107-110; body not under src/) —
bounds-checked lookup of the bucket at (location, age, sb), then a
uniform pick from it; an empty bucket fails with the EmptyBucket
condition. -/
def GetRamdomAgentFromIndex (env : CategoricalEnvironment)
    (location age sb : Nat) (draw : Nat) : Except EnvError AgentPointer :=
  match ComputeCompoundIndex env location age sb with
  | .error e => .error e
  | .ok i => (env.female_agents_.getD i (AgentVector.mk [])).GetRandomAgent draw

/-- Translation of `GetNumAgentsAtIndex`
(src/src/categorical-environment.h line 118; body not under src/,
modelled from the spec §4.1 CountAt): the size of the bucket at the
bounds-checked compound key. -/
def GetNumAgentsAtIndex (env : CategoricalEnvironment)
    (location age sb : Nat) : Except EnvError Nat :=
  match ComputeCompoundIndex env location age sb with
  | .error e => .error e
  | .ok i => .ok (env.female_agents_.getD i (AgentVector.mk [])).GetNumAgents

/-- Smallest index whose entry is ≥ the draw (spec §4.2: inverse-CDF
discrete sampling, ties resolved toward the lower index). -/
def firstIdxGe (u : ℚ) : List ℚ → Option Nat
  | [] => none
  | c :: cs =>
      if u ≤ c then some 0 else (firstIdxGe u cs).map (· + 1)

/-- Modelled from the spec (§4.2, §8): `SampleLocation` over the row of
the cumulative mate-location distribution belonging to the agent's own
location (accessed through `GetMateLocationDistribution`,
src/src/categorical-environment.h line 137): a degenerate (all-zero)
row fails explicitly, otherwise the smallest column whose cumulative
value reaches the draw is returned. -/
def SampleLocation (env : CategoricalEnvironment) (own_location : Nat)
    (u : ℚ) : Except EnvError Nat :=
  let row := env.mate_location_distribution_.getD own_location []
  if row.all (fun c => decide (c = 0)) then
    .error .DegenerateMixingRow
  else
    match firstIdxGe u row with
    | some j => .ok j
    | none => .error .DegenerateMixingRow

/-- Modelled from the spec (§4.3): `FindPartner` — draw a location via
the mixing table, then a uniform agent from the bucket of that location
and the required age band and socio-behavioural category; an empty
bucket surfaces as NoEligiblePartner, and no retry is performed. -/
def FindPartner (env : CategoricalEnvironment)
    (own_location age sb : Nat) (u : ℚ) (draw : Nat) :
    Except EnvError AgentPointer :=
  match SampleLocation env own_location u with
  | .error e => .error e
  | .ok target =>
      match GetRamdomAgentFromIndex env target age sb draw with
      | .error .EmptyBucket => .error .NoEligiblePartner
      | .error e => .error e
      | .ok a => .ok a

/-- Contents of the bucket at flat position `i`. -/
def bucketAgents (env : CategoricalEnvironment) (i : Nat) : List AgentPointer :=
  (env.female_agents_.getD i (AgentVector.mk [])).agents_

/-- The handles the classification scan routes to bucket `i`: the
eligible rows whose compound key is `i`, in scan order. -/
def agentsFor (mn mx : Int) (A L : Nat) (band : ℚ → Nat)
    (ps : List (Nat × Person)) (i : Nat) : List AgentPointer :=
  (ps.filter (fun pr =>
    eligibleB mn mx pr.2 && (keyOf A L band pr.2 == i))).map Prod.fst

/-- Closed form of the bucket array after a rebuild: bucket `i` holds
exactly the eligible rows keyed `i`, in scan order. -/
def bucketsOf (mn mx : Int) (A L S : Nat) (band : ℚ → Nat)
    (pop : List Person) : List AgentVector :=
  (List.range (A * L * S)).map (fun i =>
    AgentVector.mk (agentsFor mn mx A L band (enumAgents 0 pop) i))

/-- Closed form of the cumulative mate-location distribution after a
rebuild. -/
def tableOf (mn mx : Int) (A L S : Nat) (band : ℚ → Nat)
    (policy : List (List ℚ)) (pop : List Person) : List (List ℚ) :=
  (List.range L).map (fun i =>
    rowRebuild (policy.getD i [])
      ((List.range L).map (fun j =>
        countLocIn (bucketsOf mn mx A L S band pop) A L S j)))

/-- The constructed environment of the spec's concrete scenario (§8):
two locations, one age band, one socio-behavioural category, window
[15, 40]. -/
def scenarioEnv0 : CategoricalEnvironment :=
  mkCategoricalEnvironment 15 40 1 2 1

/-- The policy matrix of the concrete scenario. -/
def scenarioPolicy : List (List ℚ) :=
  [[9/10, 1/10], [2/10, 8/10]]

/-- The population of the concrete scenario: three eligible agents at
location 0, none at location 1. -/
def scenarioPop : List Person :=
  [⟨0, 20, kFemale, 0, 0, 0⟩, ⟨0, 20, kFemale, 0, 0, 0⟩,
   ⟨0, 20, kFemale, 0, 0, 0⟩]

/-- The age-band classifier of the concrete scenario (a single band). -/
def scenarioBand : ℚ → Nat := fun _ => 0

/-- The rebuilt environment of the concrete scenario: all three agents
in the bucket of location 0, and both cumulative mixing rows equal to
[1, 1] because location 1 holds no eligible agent. -/
def scenarioEnvAfter : CategoricalEnvironment :=
  { min_age_ := 15
    max_age_ := 40
    no_age_categories_ := 1
    no_locations_ := 2
    no_sociobehavioural_categories_ := 1
    female_agents_ := [AgentVector.mk [0, 1, 2], AgentVector.mk []]
    mate_location_distribution_ := [[1, 1], [1, 1]]
    mate_location_frequencies_ := [[0, 0], [0, 0]] }

/-! Helper lemmas about the list operations used by the embedding. -/

theorem listModify_length {α : Type} (l : List α) (i : Nat) (f : α → α) :
    (listModify l i f).length = l.length := by
  induction l generalizing i with
  | nil => rfl
  | cons x xs ih =>
      cases i with
      | zero => rfl
      | succ n => simpa [listModify] using ih n

theorem getD_listModify_self {α : Type} (l : List α) (i : Nat) (f : α → α)
    (d : α) (h : i < l.length) :
    (listModify l i f).getD i d = f (l.getD i d) := by
  induction l generalizing i with
  | nil => simp at h
  | cons x xs ih =>
      cases i with
      | zero => rfl
      | succ n =>
          simpa [listModify] using ih n (by simpa using h)

theorem getD_listModify_ne {α : Type} (l : List α) (i j : Nat) (f : α → α)
    (d : α) (h : j ≠ i) :
    (listModify l i f).getD j d = l.getD j d := by
  induction l generalizing i j with
  | nil => rfl
  | cons x xs ih =>
      cases i with
      | zero =>
          cases j with
          | zero => exact absurd rfl h
          | succ m => rfl
      | succ n =>
          cases j with
          | zero => rfl
          | succ m =>
              simpa [listModify] using ih n m (fun hc => h (by omega))

theorem getD_replicate_self {α : Type} (n i : Nat) (x : α) :
    (List.replicate n x).getD i x = x := by
  induction n generalizing i with
  | zero => rfl
  | succ m ih =>
      cases i with
      | zero => rfl
      | succ k => simp [List.replicate, ih k]

theorem mem_le_sum (l : List ℚ) (hl : ∀ x ∈ l, 0 ≤ x) :
    ∀ x ∈ l, x ≤ l.sum := by
  induction l with
  | nil => intro x hx; simp at hx
  | cons a as ih =>
      intro x hx
      rcases List.mem_cons.mp hx with rfl | hx
      · have h0 : 0 ≤ as.sum :=
          List.sum_nonneg (fun y hy => hl y (List.mem_cons_of_mem _ hy))
        have : x ≤ x + as.sum := le_add_of_nonneg_right h0
        simpa using this
      · have h1 : x ≤ as.sum :=
          ih (fun y hy => hl y (List.mem_cons_of_mem _ hy)) x hx
        have h2 : 0 ≤ a := hl a (List.mem_cons_self _ _)
        calc x ≤ as.sum := h1
          _ ≤ a + as.sum := le_add_of_nonneg_left h2
          _ = (a :: as).sum := by simp

theorem sum_nonneg_all_zero (l : List ℚ) (hl : ∀ x ∈ l, 0 ≤ x)
    (hs : l.sum = 0) : ∀ x ∈ l, x = 0 := by
  intro x hx
  exact le_antisymm (hs ▸ mem_le_sum l hl x hx) (hl x hx)

theorem sum_map_div (l : List ℚ) (s : ℚ) :
    (l.map (fun x => x / s)).sum = l.sum / s := by
  induction l with
  | nil => simp
  | cons a as ih => simp [ih, div_add_div_same]

theorem cumsumAux_getLastD (acc : ℚ) (l : List ℚ) :
    (cumsumAux acc l).getLastD acc = acc + l.sum := by
  induction l generalizing acc with
  | nil => simp [cumsumAux]
  | cons x xs ih =>
      simp only [cumsumAux, List.getLastD_cons, List.sum_cons]
      rw [ih (acc + x)]
      ring

theorem chain_cumsumAux (acc : ℚ) (l : List ℚ) (h : ∀ x ∈ l, 0 ≤ x) :
    List.Chain (· ≤ ·) acc (cumsumAux acc l) := by
  induction l generalizing acc with
  | nil => exact List.Chain.nil
  | cons x xs ih =>
      refine List.Chain.cons ?_ (ih (acc + x) ?_)
      · exact le_add_of_nonneg_right (h x (List.mem_cons_self _ _))
      · exact fun y hy => h y (List.mem_cons_of_mem _ hy)

theorem chain_drop_head {α : Type} (R : α → α → Prop) (a : α) (l : List α)
    (h : List.Chain R a l) : List.Chain' R l := by
  cases l with
  | nil => trivial
  | cons b bs =>
      cases h with
      | cons _ htail => exact htail

theorem chain'_of_all_zero (l : List ℚ) (h : ∀ x ∈ l, x = 0) :
    List.Chain' (· ≤ ·) l := by
  induction l with
  | nil => trivial
  | cons a as ih =>
      cases as with
      | nil => simp
      | cons b bs =>
          refine List.Chain'.cons ?_ (ih ?_)
          · rw [h a (by simp), h b (by simp)]
          · intro x hx; exact h x (List.mem_cons_of_mem _ hx)

theorem mem_zipWith_zeroEmpty (w : List ℚ) (counts : List Nat) :
    ∀ x ∈ zeroEmpty w counts, x = 0 ∨ x ∈ w := by
  induction w generalizing counts with
  | nil => intro x hx; simp [zeroEmpty] at hx
  | cons a as ih =>
      intro x hx
      cases counts with
      | nil => simp [zeroEmpty] at hx
      | cons c cs =>
          simp only [zeroEmpty, List.zipWith_cons_cons, List.mem_cons] at hx
          rcases hx with rfl | hx
          · by_cases hc : c = 0
            · simp [hc]
            · simp [hc]
          · rcases ih cs x hx with h0 | hw
            · exact Or.inl h0
            · exact Or.inr (List.mem_cons_of_mem _ hw)

theorem zeroEmpty_nonneg (w : List ℚ) (counts : List Nat)
    (hw : ∀ x ∈ w, 0 ≤ x) : ∀ x ∈ zeroEmpty w counts, 0 ≤ x := by
  intro x hx
  rcases mem_zipWith_zeroEmpty w counts x hx with rfl | h
  · exact le_refl 0
  · exact hw x h

theorem uniformViable_nonneg (counts : List Nat) :
    ∀ x ∈ uniformViable counts, 0 ≤ x := by
  intro x hx
  rcases List.mem_map.mp hx with ⟨c, _, rfl⟩
  by_cases hc : c = 0 <;> simp [hc]

theorem zeroEmpty_all_zero (w : List ℚ) (counts : List Nat)
    (hc : ∀ c ∈ counts, c = 0) : ∀ x ∈ zeroEmpty w counts, x = 0 := by
  induction w generalizing counts with
  | nil => intro x hx; simp [zeroEmpty] at hx
  | cons a as ih =>
      intro x hx
      cases counts with
      | nil => simp [zeroEmpty] at hx
      | cons c cs =>
          simp only [zeroEmpty, List.zipWith_cons_cons, List.mem_cons] at hx
          rcases hx with rfl | hx
          · simp [hc c (by simp)]
          · exact ih cs (fun d hd => hc d (List.mem_cons_of_mem _ hd)) x hx

theorem uniformViable_all_zero (counts : List Nat)
    (hc : ∀ c ∈ counts, c = 0) : ∀ x ∈ uniformViable counts, x = 0 := by
  intro x hx
  rcases List.mem_map.mp hx with ⟨c, hcm, rfl⟩
  simp [hc c hcm]

theorem firstIdxGe_spec (u : ℚ) (l : List ℚ) (hex : ∃ c ∈ l, u ≤ c) :
    ∃ j, firstIdxGe u l = some j ∧ j < l.length ∧ u ≤ l.getD j 0 ∧
      ∀ k, k < j → l.getD k 0 < u := by
  induction l with
  | nil => rcases hex with ⟨c, hc, _⟩; simp at hc
  | cons a as ih =>
      by_cases ha : u ≤ a
      · refine ⟨0, ?_, by simp, by simpa using ha, fun k hk => by omega⟩
        simp [firstIdxGe, ha]
      · have hex' : ∃ c ∈ as, u ≤ c := by
          rcases hex with ⟨c, hc, hcu⟩
          rcases List.mem_cons.mp hc with rfl | hc
          · exact absurd hcu ha
          · exact ⟨c, hc, hcu⟩
        rcases ih hex' with ⟨j, hj, hjl, hju, hjk⟩
        refine ⟨j + 1, ?_, by simpa using Nat.succ_lt_succ hjl, by simpa using hju, ?_⟩
        · simp [firstIdxGe, ha, hj]
        · intro k hk
          cases k with
          | zero => simpa using lt_of_not_le ha
          | succ m => simpa using hjk m (by omega)

theorem getLastD_mem' {α : Type} (l : List α) (d : α) (h : l ≠ []) :
    l.getLastD d ∈ l := by
  induction l generalizing d with
  | nil => exact absurd rfl h
  | cons a as ih =>
      cases as with
      | nil => simp
      | cons b bs =>
          rw [List.getLastD_cons]
          exact List.mem_cons_of_mem _ (ih a (by simp))

theorem getD_map_range {α : Type} (f : Nat → α) (n i : Nat) (d : α)
    (h : i < n) : ((List.range n).map f).getD i d = f i := by
  have h1 : ((List.range n).map f)[i]? = some (f i) := by
    rw [List.getElem?_map, List.getElem?_range h]
    rfl
  simp [List.getD, h1]

theorem list_ext_getD {α : Type} :
    ∀ (l1 l2 : List α) (d : α), l1.length = l2.length →
      (∀ i, i < l1.length → l1.getD i d = l2.getD i d) → l1 = l2 := by
  intro l1
  induction l1 with
  | nil =>
      intro l2 d hlen _
      cases l2 with
      | nil => rfl
      | cons y ys => simp at hlen
  | cons x xs ih =>
      intro l2 d hlen hget
      cases l2 with
      | nil => simp at hlen
      | cons y ys =>
          have hx : x = y := by simpa using hget 0 (by simp)
          have hxs : xs = ys := by
            refine ih ys d (by simpa using hlen) ?_
            intro i hi
            simpa using hget (i + 1) (by simpa using Nat.succ_lt_succ hi)
          rw [hx, hxs]

/-! Lemmas about the population enumeration. -/

theorem mem_enumAgents :
    ∀ (l : List Person) (k : Nat) (pr : Nat × Person),
      pr ∈ enumAgents k l ↔ ∃ j, l.get? j = some pr.2 ∧ pr.1 = k + j := by
  intro l
  induction l with
  | nil =>
      intro k pr
      simp [enumAgents]
  | cons q qs ih =>
      intro k pr
      constructor
      · intro hm
        rcases List.mem_cons.mp hm with rfl | hm
        · exact ⟨0, by simp, by simp⟩
        · rcases (ih (k + 1) pr).mp hm with ⟨j, hj, hk⟩
          exact ⟨j + 1, by simpa using hj, by omega⟩
      · rintro ⟨j, hj, hk⟩
        cases j with
        | zero =>
            have : pr = (k, q) := by
              cases pr
              simp only [List.get?_cons_zero, Option.some.injEq] at hj
              simp_all
            rw [this]
            exact List.mem_cons_self _ _
        | succ m =>
            refine List.mem_cons_of_mem _ ((ih (k + 1) pr).mpr ⟨m, ?_, ?_⟩)
            · simpa using hj
            · omega

theorem snd_mem_of_mem_enumAgents (l : List Person) (k : Nat)
    (pr : Nat × Person) (h : pr ∈ enumAgents k l) : pr.2 ∈ l := by
  rcases (mem_enumAgents l k pr).mp h with ⟨j, hj, _⟩
  exact List.get?_mem hj

theorem fst_enumAgents_ge :
    ∀ (l : List Person) (k n : Nat),
      n ∈ (enumAgents k l).map Prod.fst → k ≤ n := by
  intro l
  induction l with
  | nil => intro k n h; simp [enumAgents] at h
  | cons q qs ih =>
      intro k n h
      simp only [enumAgents, List.map_cons, List.mem_cons] at h
      rcases h with rfl | h
      · exact le_refl n
      · exact Nat.le_of_succ_le (ih (k + 1) n h)

theorem nodup_fst_enumAgents :
    ∀ (l : List Person) (k : Nat), ((enumAgents k l).map Prod.fst).Nodup := by
  intro l
  induction l with
  | nil => intro k; simp [enumAgents]
  | cons q qs ih =>
      intro k
      simp only [enumAgents, List.map_cons]
      refine List.nodup_cons.mpr ⟨?_, ih (k + 1)⟩
      intro hmem
      exact absurd (fst_enumAgents_ge qs (k + 1) k hmem) (by omega)

theorem keyOf_lt (A L S a l s : Nat) (ha : a < A) (hl : l < L)
    (hs : s < S) : a + A * l + A * L * s < A * L * S := by
  have h4 : A * (l + 1) ≤ A * L := Nat.mul_le_mul_left A hl
  have h5 : A * L * (s + 1) ≤ A * L * S := Nat.mul_le_mul_left (A * L) hs
  have h6 : A * (l + 1) = A * l + A := by ring
  have h7 : A * L * (s + 1) = A * L * s + A * L := by ring
  omega

theorem computeCompoundIndex_ok (env : CategoricalEnvironment)
    (loc age sb : Nat) (hl : loc < env.no_locations_)
    (ha : age < env.no_age_categories_)
    (hs : sb < env.no_sociobehavioural_categories_) :
    ComputeCompoundIndex env loc age sb =
      .ok (age + env.no_age_categories_ * loc +
        env.no_age_categories_ * env.no_locations_ * sb) := by
  simp [ComputeCompoundIndex, hl, ha, hs]

/-- One scan of the classification phase: it succeeds on an in-range
population, changes nothing but the buckets, and appends to bucket `i`
exactly the eligible handles whose key is `i`, in scan order. -/
theorem classify_spec (band : ℚ → Nat) :
    ∀ (ps : List (Nat × Person)) (env : CategoricalEnvironment),
    (∀ pr ∈ ps, eligibleB env.min_age_ env.max_age_ pr.2 = true →
        pr.2.location_ < env.no_locations_ ∧
        band pr.2.age_ < env.no_age_categories_ ∧
        pr.2.social_behaviour_factor_ < env.no_sociobehavioural_categories_) →
    (env.no_age_categories_ * env.no_locations_ *
        env.no_sociobehavioural_categories_ ≤ env.female_agents_.length) →
    ∃ e, classify band env ps = .ok e ∧
      e.min_age_ = env.min_age_ ∧ e.max_age_ = env.max_age_ ∧
      e.no_age_categories_ = env.no_age_categories_ ∧
      e.no_locations_ = env.no_locations_ ∧
      e.no_sociobehavioural_categories_ = env.no_sociobehavioural_categories_ ∧
      e.mate_location_distribution_ = env.mate_location_distribution_ ∧
      e.mate_location_frequencies_ = env.mate_location_frequencies_ ∧
      e.female_agents_.length = env.female_agents_.length ∧
      ∀ i, bucketAgents e i =
        bucketAgents env i ++
          agentsFor env.min_age_ env.max_age_ env.no_age_categories_
            env.no_locations_ band ps i := by
  intro ps
  induction ps with
  | nil =>
      intro env _ _
      exact ⟨env, rfl, rfl, rfl, rfl, rfl, rfl, rfl, rfl, rfl,
        fun i => by simp [agentsFor]⟩
  | cons hp rest ih =>
      intro env hin hlen
      obtain ⟨h, p⟩ := hp
      by_cases hel : eligibleB env.min_age_ env.max_age_ p = true
      · obtain ⟨hl, ha, hs⟩ := hin (h, p) (List.mem_cons_self _ _) hel
        set k := keyOf env.no_age_categories_ env.no_locations_ band p with hkdef
        have hkey : ComputeCompoundIndex env p.location_ (band p.age_)
            p.social_behaviour_factor_ = .ok k :=
          computeCompoundIndex_ok env _ _ _ hl ha hs
        have hklt : k < env.female_agents_.length := by
          have := keyOf_lt env.no_age_categories_ env.no_locations_
            env.no_sociobehavioural_categories_ (band p.age_) p.location_
            p.social_behaviour_factor_ ha hl hs
          calc k < env.no_age_categories_ * env.no_locations_ *
                env.no_sociobehavioural_categories_ := this
            _ ≤ env.female_agents_.length := hlen
        set env2 : CategoricalEnvironment :=
          { env with
              female_agents_ :=
                listModify env.female_agents_ k (·.AddAgent h) } with henv2
        have hstep : classify band env ((h, p) :: rest) =
            classify band env2 rest := by
          simp [classify, hel, AddAgentToIndex, hkey]
        have hin2 : ∀ pr ∈ rest,
            eligibleB env2.min_age_ env2.max_age_ pr.2 = true →
            pr.2.location_ < env2.no_locations_ ∧
            band pr.2.age_ < env2.no_age_categories_ ∧
            pr.2.social_behaviour_factor_ <
              env2.no_sociobehavioural_categories_ := by
          intro pr hpr helig
          exact hin pr (List.mem_cons_of_mem _ hpr) helig
        have hlen2 : env2.no_age_categories_ * env2.no_locations_ *
            env2.no_sociobehavioural_categories_ ≤
            env2.female_agents_.length := by
          simpa [henv2, listModify_length] using hlen
        obtain ⟨e, hcl, f1, f2, f3, f4, f5, f6, f7, f8, hbuck⟩ :=
          ih env2 hin2 hlen2
        refine ⟨e, by rw [hstep]; exact hcl, f1, f2, f3, f4, f5, f6, f7,
          by simpa [henv2, listModify_length] using f8, ?_⟩
        intro i
        have hb2 : ∀ j, bucketAgents env2 j =
            if j = k then bucketAgents env j ++ [h] else bucketAgents env j := by
          intro j
          by_cases hj : j = k
          · subst hj
            simp only [bucketAgents, henv2, if_pos rfl]
            rw [getD_listModify_self _ _ _ _ hklt]
            rfl
          · simp only [bucketAgents, henv2, if_neg hj]
            rw [getD_listModify_ne _ _ _ _ _ hj]
        have hfilter : agentsFor env.min_age_ env.max_age_
            env.no_age_categories_ env.no_locations_ band ((h, p) :: rest) i =
            (if k = i then [h] else []) ++
              agentsFor env.min_age_ env.max_age_ env.no_age_categories_
                env.no_locations_ band rest i := by
          by_cases hk : k = i
          · subst hk
            simp [agentsFor, List.filter_cons, hel]
          · have : (keyOf env.no_age_categories_ env.no_locations_ band p
                == i) = false := by
              simpa using hk
            simp [agentsFor, List.filter_cons, hel, this, hk]
        rw [hbuck i, hb2 i, hfilter]
        by_cases hk : k = i
        · subst hk
          simp
        · rw [if_neg (fun hc => hk hc.symm), if_neg hk]
          simp
      · have hstep : classify band env ((h, p) :: rest) =
            classify band env rest := by
          simp [classify, hel]
        have hin' : ∀ pr ∈ rest,
            eligibleB env.min_age_ env.max_age_ pr.2 = true →
            pr.2.location_ < env.no_locations_ ∧
            band pr.2.age_ < env.no_age_categories_ ∧
            pr.2.social_behaviour_factor_ <
              env.no_sociobehavioural_categories_ :=
          fun pr hpr helig => hin pr (List.mem_cons_of_mem _ hpr) helig
        obtain ⟨e, hcl, f1, f2, f3, f4, f5, f6, f7, f8, hbuck⟩ :=
          ih env hin' hlen
        refine ⟨e, by rw [hstep]; exact hcl, f1, f2, f3, f4, f5, f6, f7, f8, ?_⟩
        intro i
        rw [hbuck i]
        have : eligibleB env.min_age_ env.max_age_ p = false :=
          Bool.not_eq_true _ ▸ eq_false_of_ne_true hel
        simp [agentsFor, List.filter_cons, this]

/-- The rebuild on an in-range population succeeds and produces the
closed-form buckets and mixing table, leaving the window, the
dimensions and the observed frequencies untouched. -/
theorem update_ok (env : CategoricalEnvironment) (band : ℚ → Nat)
    (policy : List (List ℚ)) (pop : List Person)
    (hin : ∀ p ∈ pop, eligibleB env.min_age_ env.max_age_ p = true →
        p.location_ < env.no_locations_ ∧
        band p.age_ < env.no_age_categories_ ∧
        p.social_behaviour_factor_ < env.no_sociobehavioural_categories_) :
    Update env band policy pop =
      .ok { env with
              female_agents_ :=
                bucketsOf env.min_age_ env.max_age_ env.no_age_categories_
                  env.no_locations_ env.no_sociobehavioural_categories_ band pop,
              mate_location_distribution_ :=
                tableOf env.min_age_ env.max_age_ env.no_age_categories_
                  env.no_locations_ env.no_sociobehavioural_categories_ band
                  policy pop } := by
  obtain ⟨e, hcl, f1, f2, f3, f4, f5, f6, f7, f8, hbuck⟩ :=
    classify_spec band (enumAgents 0 pop)
      { env with
          female_agents_ :=
            List.replicate (env.no_age_categories_ * env.no_locations_ *
              env.no_sociobehavioural_categories_) (AgentVector.mk []) }
      (fun pr hpr helig =>
        hin pr.2 (snd_mem_of_mem_enumAgents pop 0 pr hpr) helig)
      (by simp)
  simp only at f1 f2 f3 f4 f5 f6 f7 f8 hbuck
  have hfa : e.female_agents_ =
      bucketsOf env.min_age_ env.max_age_ env.no_age_categories_
        env.no_locations_ env.no_sociobehavioural_categories_ band pop := by
    refine list_ext_getD _ _ (AgentVector.mk []) ?_ ?_
    · rw [f8]
      simp [bucketsOf]
    · intro i hi
      have hiN : i < env.no_age_categories_ * env.no_locations_ *
          env.no_sociobehavioural_categories_ := by
        have hl8 : e.female_agents_.length = env.no_age_categories_ *
            env.no_locations_ * env.no_sociobehavioural_categories_ := by
          simp [f8]
        omega
      have h1 : (e.female_agents_.getD i (AgentVector.mk [])).agents_ =
          agentsFor env.min_age_ env.max_age_ env.no_age_categories_
            env.no_locations_ band (enumAgents 0 pop) i := by
        have hb := hbuck i
        simp only [bucketAgents] at hb
        rw [hb, getD_replicate_self]
        simp
      have h2 : (bucketsOf env.min_age_ env.max_age_ env.no_age_categories_
          env.no_locations_ env.no_sociobehavioural_categories_ band
          pop).getD i (AgentVector.mk []) =
          AgentVector.mk (agentsFor env.min_age_ env.max_age_
            env.no_age_categories_ env.no_locations_ band
            (enumAgents 0 pop) i) := by
        unfold bucketsOf
        exact getD_map_range _ _ _ _ hiN
      rw [h2]
      cases hv : e.female_agents_.getD i (AgentVector.mk []) with
      | mk as =>
          congr 1
          rw [← h1, hv]
  have hrun : Update env band policy pop =
      .ok { e with
              mate_location_distribution_ :=
                (List.range env.no_locations_).map (fun i =>
                  rowRebuild (policy.getD i [])
                    ((List.range env.no_locations_).map (fun j =>
                      countLocIn e.female_agents_ env.no_age_categories_
                        env.no_locations_
                        env.no_sociobehavioural_categories_ j))) } := by
    simp only [Update]
    rw [hcl]
  rw [hrun, hfa]
  rw [f1, f2, f3, f4, f5, f7]
  simp only [tableOf]

theorem selectWeights_nonneg (w : List ℚ) (counts : List Nat)
    (hw : ∀ x ∈ w, 0 ≤ x) : ∀ x ∈ selectWeights w counts, 0 ≤ x := by
  unfold selectWeights
  by_cases hz : (zeroEmpty w counts).sum = 0
  · rw [if_pos hz]
    exact uniformViable_nonneg counts
  · rw [if_neg hz]
    exact zeroEmpty_nonneg w counts hw

theorem selectWeights_sum_ne_zero (w : List ℚ) (counts : List Nat)
    (_ : ∀ x ∈ w, 0 ≤ x) (hc : ∃ c ∈ counts, c ≠ 0) :
    (selectWeights w counts).sum ≠ 0 := by
  unfold selectWeights
  by_cases hz : (zeroEmpty w counts).sum = 0
  · rw [if_pos hz]
    rcases hc with ⟨c, hcm, hcne⟩
    have h1 : (1 : ℚ) ∈ uniformViable counts := by
      refine List.mem_map.mpr ⟨c, hcm, ?_⟩
      simp [hcne]
    have h2 : (1 : ℚ) ≤ (uniformViable counts).sum :=
      mem_le_sum _ (uniformViable_nonneg counts) 1 h1
    intro h0
    rw [h0] at h2
    norm_num at h2
  · rw [if_neg hz]
    exact hz

theorem normCum_chain (v : List ℚ) (hv : ∀ x ∈ v, 0 ≤ x) :
    List.Chain' (· ≤ ·) (normCum v) := by
  unfold normCum
  by_cases hs : v.sum = 0
  · rw [if_pos hs]
    exact chain'_of_all_zero v (sum_nonneg_all_zero v hv hs)
  · rw [if_neg hs]
    have hnn : ∀ x ∈ v.map (fun x => x / v.sum), 0 ≤ x := by
      intro x hx
      rcases List.mem_map.mp hx with ⟨y, hy, rfl⟩
      exact div_nonneg (hv y hy) (List.sum_nonneg hv)
    exact chain_drop_head _ 0 _ (chain_cumsumAux 0 _ hnn)

theorem normCum_getLastD (v : List ℚ) (hs : v.sum ≠ 0) :
    (normCum v).getLastD 0 = 1 := by
  unfold normCum
  rw [if_neg hs]
  unfold cumsum
  rw [cumsumAux_getLastD, sum_map_div]
  simp [div_self hs]

theorem rowRebuild_chain (w : List ℚ) (counts : List Nat)
    (hw : ∀ x ∈ w, 0 ≤ x) : List.Chain' (· ≤ ·) (rowRebuild w counts) :=
  normCum_chain _ (selectWeights_nonneg w counts hw)

theorem rowRebuild_last (w : List ℚ) (counts : List Nat)
    (hw : ∀ x ∈ w, 0 ≤ x) (hc : ∃ c ∈ counts, c ≠ 0) :
    (rowRebuild w counts).getLastD 0 = 1 :=
  normCum_getLastD _ (selectWeights_sum_ne_zero w counts hw hc)

theorem rowRebuild_degenerate (w : List ℚ) (counts : List Nat)
    (hc : ∀ c ∈ counts, c = 0) : ∀ x ∈ rowRebuild w counts, x = 0 := by
  have hz : (zeroEmpty w counts).sum = 0 :=
    List.sum_eq_zero (zeroEmpty_all_zero w counts hc)
  have hsel : selectWeights w counts = uniformViable counts := by
    unfold selectWeights
    rw [if_pos hz]
  have huz : ∀ x ∈ uniformViable counts, x = 0 :=
    uniformViable_all_zero counts hc
  have hus : (uniformViable counts).sum = 0 := List.sum_eq_zero huz
  unfold rowRebuild normCum
  rw [hsel, if_pos hus]
  exact huz

/-- The classification scan never touches the eligibility window, the
dimensions or the mixing matrices, whatever its outcome. -/
theorem classify_frame (band : ℚ → Nat) :
    ∀ (ps : List (Nat × Person)) (env e : CategoricalEnvironment),
      classify band env ps = .ok e →
      e.min_age_ = env.min_age_ ∧ e.max_age_ = env.max_age_ := by
  intro ps
  induction ps with
  | nil =>
      intro env e h
      cases h
      exact ⟨rfl, rfl⟩
  | cons hp rest ih =>
      intro env e h
      obtain ⟨n, p⟩ := hp
      by_cases hel : eligibleB env.min_age_ env.max_age_ p = true
      · simp only [classify, hel, if_true] at h
        cases hadd : AddAgentToIndex env n p.location_ (band p.age_)
            p.social_behaviour_factor_ with
        | error err => rw [hadd] at h; cases h
        | ok e2 =>
            rw [hadd] at h
            have he2 : e2.min_age_ = env.min_age_ ∧
                e2.max_age_ = env.max_age_ := by
              unfold AddAgentToIndex at hadd
              cases hcomp : ComputeCompoundIndex env p.location_ (band p.age_)
                  p.social_behaviour_factor_ with
              | error err => rw [hcomp] at hadd; cases hadd
              | ok i =>
                  rw [hcomp] at hadd
                  cases hadd
                  exact ⟨rfl, rfl⟩
            obtain ⟨g1, g2⟩ := ih e2 e h
            exact ⟨g1.trans he2.1, g2.trans he2.2⟩
      · simp only [classify, hel, if_false] at h
        exact ih env e h

/-- The rebuild never changes the eligibility window. -/
theorem update_frame (env : CategoricalEnvironment) (band : ℚ → Nat)
    (policy : List (List ℚ)) (pop : List Person)
    (e : CategoricalEnvironment) (h : Update env band policy pop = .ok e) :
    e.min_age_ = env.min_age_ ∧ e.max_age_ = env.max_age_ := by
  simp only [Update] at h
  cases hcl : classify band
      { env with
          female_agents_ :=
            List.replicate (env.no_age_categories_ * env.no_locations_ *
              env.no_sociobehavioural_categories_) (AgentVector.mk []) }
      (enumAgents 0 pop) with
  | error err => rw [hcl] at h; cases h
  | ok filled =>
      rw [hcl] at h
      obtain ⟨g1, g2⟩ := classify_frame band _ _ _ hcl
      cases h
      exact ⟨g1, g2⟩

theorem decode_pair (B x y : Nat) (hx : x < B) :
    (x + B * y) % B = x ∧ (x + B * y) / B = y := by
  constructor
  · rw [Nat.add_mul_mod_self_left, Nat.mod_eq_of_lt hx]
  · rw [Nat.add_mul_div_left _ _ (by omega : 0 < B), Nat.div_eq_of_lt hx,
      Nat.zero_add]

/-- Claim C2: for in-range arguments `ComputeCompoundIndex` returns
`age + A·location + A·L·sb`, and this mapping is a bijection from the
cross-product space `[0,L)×[0,A)×[0,S)` onto exactly `[0, A·L·S)`:
its values stay below `A·L·S`, it is injective there, and every key
below `A·L·S` is attained. -/
theorem computeCompoundIndex_formula_bijective (env : CategoricalEnvironment) :
    (∀ loc age sb, loc < env.no_locations_ → age < env.no_age_categories_ →
      sb < env.no_sociobehavioural_categories_ →
      ComputeCompoundIndex env loc age sb =
        .ok (age + env.no_age_categories_ * loc +
          env.no_age_categories_ * env.no_locations_ * sb) ∧
      age + env.no_age_categories_ * loc +
          env.no_age_categories_ * env.no_locations_ * sb <
        env.no_age_categories_ * env.no_locations_ *
          env.no_sociobehavioural_categories_) ∧
    (∀ l1 a1 s1 l2 a2 s2,
      l1 < env.no_locations_ → a1 < env.no_age_categories_ →
      s1 < env.no_sociobehavioural_categories_ →
      l2 < env.no_locations_ → a2 < env.no_age_categories_ →
      s2 < env.no_sociobehavioural_categories_ →
      ComputeCompoundIndex env l1 a1 s1 = ComputeCompoundIndex env l2 a2 s2 →
      l1 = l2 ∧ a1 = a2 ∧ s1 = s2) ∧
    (∀ k, k < env.no_age_categories_ * env.no_locations_ *
        env.no_sociobehavioural_categories_ →
      ∃ loc age sb, loc < env.no_locations_ ∧ age < env.no_age_categories_ ∧
        sb < env.no_sociobehavioural_categories_ ∧
        ComputeCompoundIndex env loc age sb = .ok k) := by
  set A := env.no_age_categories_ with hA
  set L := env.no_locations_ with hL
  set S := env.no_sociobehavioural_categories_ with hS
  refine ⟨?_, ?_, ?_⟩
  · intro loc age sb hl ha hs
    exact ⟨computeCompoundIndex_ok env loc age sb hl ha hs,
      keyOf_lt A L S age loc sb ha hl hs⟩
  · intro l1 a1 s1 l2 a2 s2 hl1 ha1 hs1 hl2 ha2 hs2 heq
    rw [computeCompoundIndex_ok env l1 a1 s1 hl1 ha1 hs1,
      computeCompoundIndex_ok env l2 a2 s2 hl2 ha2 hs2] at heq
    have e1 : a1 + A * l1 + A * L * s1 = a2 + A * l2 + A * L * s2 := by
      simpa using heq
    have r1 : a1 + A * l1 + A * L * s1 = a1 + A * (l1 + L * s1) := by ring
    have r2 : a2 + A * l2 + A * L * s2 = a2 + A * (l2 + L * s2) := by ring
    have d1 := decode_pair A a1 (l1 + L * s1) ha1
    have d2 := decode_pair A a2 (l2 + L * s2) ha2
    have ha : a1 = a2 := by
      have := congrArg (· % A) e1
      simp only [r1, r2] at this
      rw [d1.1, d2.1] at this
      exact this
    have hq : l1 + L * s1 = l2 + L * s2 := by
      have := congrArg (· / A) e1
      simp only [r1, r2] at this
      rw [d1.2, d2.2] at this
      exact this
    have g1 := decode_pair L l1 s1 hl1
    have g2 := decode_pair L l2 s2 hl2
    have hlx : l1 = l2 := by
      have := congrArg (· % L) hq
      simp only at this
      rw [g1.1, g2.1] at this
      exact this
    have hsx : s1 = s2 := by
      have := congrArg (· / L) hq
      simp only at this
      rw [g1.2, g2.2] at this
      exact this
    exact ⟨hlx, ha, hsx⟩
  · intro k hk
    have hA0 : 0 < A := by
      rcases Nat.eq_zero_or_pos A with h0 | h
      · rw [h0] at hk; simp at hk
      · exact h
    have hL0 : 0 < L := by
      rcases Nat.eq_zero_or_pos L with h0 | h
      · rw [h0] at hk; simp at hk
      · exact h
    refine ⟨(k / A) % L, k % A, k / A / L, Nat.mod_lt _ hL0,
      Nat.mod_lt _ hA0, ?_, ?_⟩
    · have hdd : k / A / L = k / (A * L) := Nat.div_div_eq_div_mul k A L
      rw [hdd]
      rw [Nat.div_lt_iff_lt_mul (Nat.mul_pos hA0 hL0)]
      calc k < A * L * S := hk
        _ = S * (A * L) := by ring
    · rw [computeCompoundIndex_ok env _ _ _ (Nat.mod_lt _ hL0)
        (Nat.mod_lt _ hA0) ?_]
      · congr 1
        have step1 : (k / A) % L + L * (k / A / L) = k / A :=
          Nat.mod_add_div _ _
        calc k % A + A * ((k / A) % L) + A * L * (k / A / L)
            = k % A + A * ((k / A) % L + L * (k / A / L)) := by ring
          _ = k % A + A * (k / A) := by rw [step1]
          _ = k := Nat.mod_add_div _ _
      · have hdd : k / A / L = k / (A * L) := Nat.div_div_eq_div_mul k A L
        rw [hdd]
        rw [Nat.div_lt_iff_lt_mul (Nat.mul_pos hA0 hL0)]
        calc k < A * L * S := hk
          _ = S * (A * L) := by ring

/-- Witness for the C2 theorem at a concrete environment: dimensions
A=2, L=3, S=2 and key 7 is attained. -/
theorem computeCompoundIndex_formula_bijective_witness :
    ∃ loc age sb, loc < 3 ∧ age < 2 ∧ sb < 2 ∧
      ComputeCompoundIndex (mkCategoricalEnvironment 15 40 2 3 2) loc age sb =
        .ok 7 :=
  (computeCompoundIndex_formula_bijective
    (mkCategoricalEnvironment 15 40 2 3 2)).2.2 7 (by decide)

/-- Claim C4: an out-of-range component makes `ComputeCompoundIndex`
fail with the OutOfRange condition; it never returns an in-range key
for such input. -/
theorem computeCompoundIndex_out_of_range (env : CategoricalEnvironment)
    (loc age sb : Nat)
    (h : env.no_locations_ ≤ loc ∨ env.no_age_categories_ ≤ age ∨
      env.no_sociobehavioural_categories_ ≤ sb) :
    ComputeCompoundIndex env loc age sb = .error .OutOfRange ∧
    ∀ k, ComputeCompoundIndex env loc age sb ≠ .ok k := by
  have hcond : ¬(loc < env.no_locations_ ∧ age < env.no_age_categories_ ∧
      sb < env.no_sociobehavioural_categories_) := by omega
  refine ⟨?_, ?_⟩
  · simp [ComputeCompoundIndex, hcond]
  · intro k
    simp [ComputeCompoundIndex, hcond]

/-- Witness for the C4 theorem: location 5 is out of range for L=2. -/
theorem computeCompoundIndex_out_of_range_witness :
    ComputeCompoundIndex (mkCategoricalEnvironment 15 40 1 2 1) 5 0 0 =
      .error .OutOfRange ∧
    ∀ k, ComputeCompoundIndex (mkCategoricalEnvironment 15 40 1 2 1) 5 0 0 ≠
      .ok k :=
  computeCompoundIndex_out_of_range (mkCategoricalEnvironment 15 40 1 2 1)
    5 0 0 (by decide)

/-- Claim C10: the inherited `Clear` override has an empty body, so it
leaves every bucket, both mixing matrices and the eligibility window
unchanged — the whole state is unchanged. -/
theorem clear_is_noop (env : CategoricalEnvironment) :
    (CategoricalEnvironment.Clear env).female_agents_ = env.female_agents_ ∧
    (CategoricalEnvironment.Clear env).mate_location_distribution_ =
      env.mate_location_distribution_ ∧
    (CategoricalEnvironment.Clear env).mate_location_frequencies_ =
      env.mate_location_frequencies_ ∧
    (CategoricalEnvironment.Clear env).min_age_ = env.min_age_ ∧
    (CategoricalEnvironment.Clear env).max_age_ = env.max_age_ ∧
    CategoricalEnvironment.Clear env = env :=
  ⟨rfl, rfl, rfl, rfl, rfl, rfl⟩

/-- Claim C1: sampling from an empty bucket (within the declared
dimensions) fails with the EmptyBucket condition and never produces an
agent reference. -/
theorem getRandomAgentFromIndex_empty_bucket (env : CategoricalEnvironment)
    (loc age sb draw : Nat)
    (h : GetNumAgentsAtIndex env loc age sb = .ok 0) :
    GetRamdomAgentFromIndex env loc age sb draw = .error .EmptyBucket ∧
    ∀ a, GetRamdomAgentFromIndex env loc age sb draw ≠ .ok a := by
  unfold GetNumAgentsAtIndex at h
  cases hcomp : ComputeCompoundIndex env loc age sb with
  | error e => rw [hcomp] at h; cases h
  | ok i =>
      rw [hcomp] at h
      have hlen : (env.female_agents_.getD i (AgentVector.mk [])).agents_.length
          = 0 := by
        have := Except.ok.inj h
        simpa [AgentVector.GetNumAgents] using this
      have hres : GetRamdomAgentFromIndex env loc age sb draw =
          .error .EmptyBucket := by
        unfold GetRamdomAgentFromIndex AgentVector.GetRandomAgent
        rw [hcomp]
        exact dif_pos hlen
      refine ⟨hres, ?_⟩
      intro a hc
      rw [hres] at hc
      cases hc

/-- Witness for the C1 theorem: the freshly constructed environment has
an empty bucket at (1, 0, 0). -/
theorem getRandomAgentFromIndex_empty_bucket_witness :
    GetNumAgentsAtIndex scenarioEnv0 1 0 0 = .ok 0 ∧
    GetRamdomAgentFromIndex scenarioEnv0 1 0 0 7 = .error .EmptyBucket :=
  ⟨by rfl,
    (getRandomAgentFromIndex_empty_bucket scenarioEnv0 1 0 0 7 (by rfl)).1⟩

/-- Claim C7: on a proper cumulative row (one ending at 1) and a draw
in [0,1), `SampleLocation` returns precisely the smallest column whose
cumulative value reaches the draw — in particular, on exact equality
the lower index wins, and the result is a function of the draw. -/
theorem sampleLocation_inverse_cdf (env : CategoricalEnvironment)
    (own : Nat) (u : ℚ) (_hown : own < env.no_locations_)
    (_hu0 : 0 ≤ u) (hu1 : u < 1)
    (hrow : (env.mate_location_distribution_.getD own []).getLastD 0 = 1) :
    ∃ j, SampleLocation env own u = .ok j ∧
      j < (env.mate_location_distribution_.getD own []).length ∧
      u ≤ (env.mate_location_distribution_.getD own []).getD j 0 ∧
      ∀ k, k < j → (env.mate_location_distribution_.getD own []).getD k 0 < u := by
  have hne : env.mate_location_distribution_.getD own [] ≠ [] := by
    intro h0
    rw [h0] at hrow
    simp at hrow
  have hmem1 : (1 : ℚ) ∈ env.mate_location_distribution_.getD own [] := by
    have := getLastD_mem' (env.mate_location_distribution_.getD own []) 0 hne
    rwa [hrow] at this
  have hex : ∃ c ∈ env.mate_location_distribution_.getD own [], u ≤ c :=
    ⟨1, hmem1, le_of_lt hu1⟩
  obtain ⟨j, hj, hjl, hju, hjk⟩ :=
    firstIdxGe_spec u (env.mate_location_distribution_.getD own []) hex
  have hnz : ((env.mate_location_distribution_.getD own []).all
      (fun c => decide (c = 0))) = false := by
    rcases Bool.eq_false_or_eq_true ((env.mate_location_distribution_.getD
        own []).all (fun c => decide (c = 0))) with ht | hf
    · exfalso
      have := List.all_eq_true.mp ht 1 hmem1
      simp at this
    · exact hf
  refine ⟨j, ?_, hjl, hju, hjk⟩
  unfold SampleLocation
  simp only [hnz, Bool.false_eq_true, if_false, hj]

/-- Witness for the C7 theorem at the rebuilt scenario environment,
own location 0, draw 0. -/
theorem sampleLocation_inverse_cdf_witness :
    ∃ j, SampleLocation scenarioEnvAfter 0 0 = .ok j ∧
      j < (scenarioEnvAfter.mate_location_distribution_.getD 0 []).length ∧
      (0 : ℚ) ≤ (scenarioEnvAfter.mate_location_distribution_.getD 0 []).getD j 0 ∧
      ∀ k, k < j →
        (scenarioEnvAfter.mate_location_distribution_.getD 0 []).getD k 0 < 0 :=
  sampleLocation_inverse_cdf scenarioEnvAfter 0 0 (by decide) (by decide)
    (by decide) (by decide)

/-! The concrete scenario of spec §8, computed. -/

theorem scenario_buckets :
    bucketsOf 15 40 1 2 1 scenarioBand scenarioPop =
      [AgentVector.mk [0, 1, 2], AgentVector.mk []] := by
  decide

theorem scenario_counts :
    (List.range 2).map (fun j =>
      countLocIn (bucketsOf 15 40 1 2 1 scenarioBand scenarioPop) 1 2 1 j) =
      [3, 0] := by
  decide

theorem scenario_row0 : rowRebuild [9/10, 1/10] [3, 0] = [1, 1] := by
  norm_num [rowRebuild, selectWeights, zeroEmpty, uniformViable, normCum,
    cumsum, cumsumAux]

theorem scenario_row1 : rowRebuild [2/10, 8/10] [3, 0] = [1, 1] := by
  norm_num [rowRebuild, selectWeights, zeroEmpty, uniformViable, normCum,
    cumsum, cumsumAux]

theorem scenario_table :
    tableOf 15 40 1 2 1 scenarioBand scenarioPolicy scenarioPop =
      [[1, 1], [1, 1]] := by
  unfold tableOf
  rw [scenario_counts]
  have hr : List.range 2 = [0, 1] := rfl
  rw [hr]
  simp only [List.map_cons, List.map_nil]
  have h0 : scenarioPolicy.getD 0 [] = [9/10, 1/10] := rfl
  have h1 : scenarioPolicy.getD 1 [] = [2/10, 8/10] := rfl
  rw [h0, h1, scenario_row0, scenario_row1]

theorem scenario_update_eq :
    Update scenarioEnv0 scenarioBand scenarioPolicy scenarioPop =
      .ok scenarioEnvAfter := by
  have hin : ∀ p ∈ scenarioPop,
      eligibleB scenarioEnv0.min_age_ scenarioEnv0.max_age_ p = true →
      p.location_ < scenarioEnv0.no_locations_ ∧
      scenarioBand p.age_ < scenarioEnv0.no_age_categories_ ∧
      p.social_behaviour_factor_ <
        scenarioEnv0.no_sociobehavioural_categories_ := by
    decide
  rw [update_ok scenarioEnv0 scenarioBand scenarioPolicy scenarioPop hin]
  show Except.ok (CategoricalEnvironment.mk 15 40 1 2 1
      (bucketsOf 15 40 1 2 1 scenarioBand scenarioPop)
      (tableOf 15 40 1 2 1 scenarioBand scenarioPolicy scenarioPop)
      [[0, 0], [0, 0]]) = Except.ok scenarioEnvAfter
  rw [scenario_buckets, scenario_table]
  rfl

/-- Unfolding lemma: with a computed compound key, the indexed sampler
is the bucket sampler at that key. -/
theorem getRamdomAgentFromIndex_eq (env : CategoricalEnvironment)
    (loc age sb draw i : Nat)
    (hcomp : ComputeCompoundIndex env loc age sb = .ok i) :
    GetRamdomAgentFromIndex env loc age sb draw =
      (env.female_agents_.getD i (AgentVector.mk [])).GetRandomAgent draw := by
  simp only [GetRamdomAgentFromIndex, hcomp]

/-- Unfolding lemma: sampling a non-empty bucket returns the entry at
the drawn position. -/
theorem getRandomAgent_nonempty (v : AgentVector) (draw : Nat)
    (h : v.agents_.length ≠ 0) :
    v.GetRandomAgent draw =
      .ok (v.agents_.get ⟨draw % v.agents_.length,
        Nat.mod_lt _ (Nat.pos_of_ne_zero h)⟩) := by
  unfold AgentVector.GetRandomAgent
  rw [dif_neg h]

/-- Composition lemma for the partner sampler: a successful location
draw followed by a successful bucket draw is a successful find. -/
theorem findPartner_ok (env : CategoricalEnvironment)
    (own age sb : Nat) (u : ℚ) (draw t a : Nat)
    (h1 : SampleLocation env own u = .ok t)
    (h2 : GetRamdomAgentFromIndex env t age sb draw = .ok a) :
    FindPartner env own age sb u draw = .ok a := by
  simp only [FindPartner, h1, h2]

/-- Claim C6 counterexample: in the spec's concrete scenario, row 1 of
the rebuilt cumulative mixing table is [1, 1] — not degenerate — and
`FindPartner` from location 1 (draw 0) succeeds with agent 0, where
the claim requires it to always fail with NoEligiblePartner. -/
theorem scenario_findPartner_from_loc1_succeeds :
    Update scenarioEnv0 scenarioBand scenarioPolicy scenarioPop =
      .ok scenarioEnvAfter ∧
    scenarioEnvAfter.mate_location_distribution_.getD 1 [] = [1, 1] ∧
    (∃ c ∈ scenarioEnvAfter.mate_location_distribution_.getD 1 [], c ≠ 0) ∧
    FindPartner scenarioEnvAfter 1 0 0 0 0 = .ok 0 :=
  ⟨scenario_update_eq, rfl, ⟨1, by decide, one_ne_zero⟩, by rfl⟩

/-- Claim C6 (amended): after the rebuild of the concrete scenario,
row 0 of the cumulative mixing table is [1, 1] as claimed; row 1 is
also [1, 1] (its weight toward the empty location 1 is zeroed and the
remainder renormalized, so it is not degenerate); and `FindPartner`
from either location, at any draw in [0,1), always succeeds and
returns one of the 3 eligible agents bucketed at location 0. -/
theorem scenario_findPartner_amended (own : Nat) (u : ℚ) (draw : Nat)
    (hown : own < 2) (_hu0 : 0 ≤ u) (hu1 : u < 1) :
    scenarioEnvAfter.mate_location_distribution_.getD 0 [] = [1, 1] ∧
    scenarioEnvAfter.mate_location_distribution_.getD 1 [] = [1, 1] ∧
    ∃ a, FindPartner scenarioEnvAfter own 0 0 u draw = .ok a ∧
      a ∈ [0, 1, 2] := by
  refine ⟨rfl, rfl, ?_⟩
  have hrow : scenarioEnvAfter.mate_location_distribution_.getD own [] =
      [1, 1] := by
    match own, hown with
    | 0, _ => rfl
    | 1, _ => rfl
  have hall : (([1, 1] : List ℚ).all (fun c => decide (c = 0))) = false := by
    decide
  have hfirst : firstIdxGe u [1, 1] = some 0 := by
    unfold firstIdxGe
    rw [if_pos (le_of_lt hu1)]
  have hsl : SampleLocation scenarioEnvAfter own u = .ok 0 := by
    simp only [SampleLocation, hrow, hall, Bool.false_eq_true, if_false, hfirst]
  have hbd : scenarioEnvAfter.female_agents_.getD 0 (AgentVector.mk []) =
      AgentVector.mk [0, 1, 2] := rfl
  have hget : GetRamdomAgentFromIndex scenarioEnvAfter 0 0 0 draw =
      .ok (([0, 1, 2] : List AgentPointer).get
        ⟨draw % 3, Nat.mod_lt _ (by omega)⟩) := by
    rw [getRamdomAgentFromIndex_eq scenarioEnvAfter 0 0 0 draw 0 (by rfl),
      hbd, getRandomAgent_nonempty _ _ (by decide)]
    rfl
  refine ⟨([0, 1, 2] : List AgentPointer).get ⟨draw % 3, Nat.mod_lt _ (by omega)⟩,
    findPartner_ok scenarioEnvAfter own 0 0 u draw 0 _ hsl hget, ?_⟩
  exact List.get_mem _ _ _

/-- Witness for the amended C6 theorem: location 1, draw 0. -/
theorem scenario_findPartner_amended_witness :
    scenarioEnvAfter.mate_location_distribution_.getD 0 [] = [1, 1] ∧
    scenarioEnvAfter.mate_location_distribution_.getD 1 [] = [1, 1] ∧
    ∃ a, FindPartner scenarioEnvAfter 1 0 0 0 5 = .ok a ∧ a ∈ [0, 1, 2] :=
  scenario_findPartner_amended 1 0 5 (by decide) (by decide) (by decide)

/-- Claim C8: the rebuild is idempotent — rebuilding twice in a row
with an unchanged population succeeds both times and the second result
has exactly the bucket contents and Mixing Table values of the
first. -/
theorem update_idempotent (env : CategoricalEnvironment) (band : ℚ → Nat)
    (policy : List (List ℚ)) (pop : List Person)
    (hin : ∀ p ∈ pop, eligibleB env.min_age_ env.max_age_ p = true →
        p.location_ < env.no_locations_ ∧
        band p.age_ < env.no_age_categories_ ∧
        p.social_behaviour_factor_ < env.no_sociobehavioural_categories_) :
    ∃ e1 e2, Update env band policy pop = .ok e1 ∧
      Update e1 band policy pop = .ok e2 ∧
      e2.female_agents_ = e1.female_agents_ ∧
      e2.mate_location_distribution_ = e1.mate_location_distribution_ ∧
      e2.mate_location_frequencies_ = e1.mate_location_frequencies_ :=
  ⟨_, _, update_ok env band policy pop hin,
    update_ok _ band policy pop hin, rfl, rfl, rfl⟩

/-- Witness for the C8 theorem at the concrete scenario. -/
theorem update_idempotent_witness :
    ∃ e1 e2, Update scenarioEnv0 scenarioBand scenarioPolicy scenarioPop =
        .ok e1 ∧
      Update e1 scenarioBand scenarioPolicy scenarioPop = .ok e2 ∧
      e2.female_agents_ = e1.female_agents_ ∧
      e2.mate_location_distribution_ = e1.mate_location_distribution_ ∧
      e2.mate_location_frequencies_ = e1.mate_location_frequencies_ :=
  update_idempotent scenarioEnv0 scenarioBand scenarioPolicy scenarioPop
    (by decide)

/-- Membership in the routing of the rebuild: handle `h` lands in the
class of key `i` exactly when row `h` of the population is eligible and
keyed `i`. -/
theorem mem_agentsFor (mn mx : Int) (A L : Nat) (band : ℚ → Nat)
    (pop : List Person) (i h : Nat) :
    h ∈ agentsFor mn mx A L band (enumAgents 0 pop) i ↔
      ∃ p, pop.get? h = some p ∧ eligibleB mn mx p = true ∧
        keyOf A L band p = i := by
  unfold agentsFor
  rw [List.mem_map]
  constructor
  · rintro ⟨pr, hprf, hfst⟩
    have hprm := List.mem_filter.mp hprf
    rcases (mem_enumAgents pop 0 pr).mp hprm.1 with ⟨j, hj, hjk⟩
    have hb := hprm.2
    rw [Bool.and_eq_true] at hb
    have hjh : j = h := by omega
    refine ⟨pr.2, ?_, hb.1, ?_⟩
    · rw [← hjh]; exact hj
    · simpa using hb.2
  · rintro ⟨p, hp, he, hk⟩
    refine ⟨(h, p), ?_, rfl⟩
    refine List.mem_filter.mpr ⟨?_, ?_⟩
    · exact (mem_enumAgents pop 0 (h, p)).mpr ⟨h, hp, by omega⟩
    · rw [Bool.and_eq_true]
      exact ⟨he, by simpa using hk⟩

/-- The routed handles of one class are distinct. -/
theorem nodup_agentsFor (mn mx : Int) (A L : Nat) (band : ℚ → Nat)
    (pop : List Person) (i : Nat) :
    (agentsFor mn mx A L band (enumAgents 0 pop) i).Nodup := by
  unfold agentsFor
  refine (nodup_fst_enumAgents pop 0).sublist ?_
  exact List.Sublist.map _ (List.filter_sublist _)

/-- Claim C3: after a successful rebuild over an in-range population,
every eligible row appears exactly once, in precisely the bucket whose
compound key is the row's (location, age band, sb) key, and every
ineligible row appears in no bucket at all. -/
theorem update_buckets_partition (env : CategoricalEnvironment)
    (band : ℚ → Nat) (policy : List (List ℚ)) (pop : List Person)
    (e : CategoricalEnvironment)
    (hin : ∀ p ∈ pop, eligibleB env.min_age_ env.max_age_ p = true →
        p.location_ < env.no_locations_ ∧
        band p.age_ < env.no_age_categories_ ∧
        p.social_behaviour_factor_ < env.no_sociobehavioural_categories_)
    (hupd : Update env band policy pop = .ok e) :
    ∀ h p, pop.get? h = some p →
      (eligibleB env.min_age_ env.max_age_ p = true →
        ((e.female_agents_.getD (keyOf env.no_age_categories_
            env.no_locations_ band p) (AgentVector.mk [])).agents_.count h
          = 1) ∧
        ∀ i, i ≠ keyOf env.no_age_categories_ env.no_locations_ band p →
          h ∉ (e.female_agents_.getD i (AgentVector.mk [])).agents_) ∧
      (eligibleB env.min_age_ env.max_age_ p = false →
        ∀ i, h ∉ (e.female_agents_.getD i (AgentVector.mk [])).agents_) := by
  have hcanon := update_ok env band policy pop hin
  rw [hupd] at hcanon
  have he := Except.ok.inj hcanon
  have hbucket : ∀ i,
      (e.female_agents_.getD i (AgentVector.mk [])).agents_ =
        if i < env.no_age_categories_ * env.no_locations_ *
            env.no_sociobehavioural_categories_ then
          agentsFor env.min_age_ env.max_age_ env.no_age_categories_
            env.no_locations_ band (enumAgents 0 pop) i
        else [] := by
    intro i
    rw [he]
    by_cases hi : i < env.no_age_categories_ * env.no_locations_ *
        env.no_sociobehavioural_categories_
    · rw [if_pos hi]
      show ((bucketsOf env.min_age_ env.max_age_ env.no_age_categories_
          env.no_locations_ env.no_sociobehavioural_categories_ band
          pop).getD i (AgentVector.mk [])).agents_ = _
      unfold bucketsOf
      rw [getD_map_range _ _ _ _ hi]
    · rw [if_neg hi]
      show ((bucketsOf env.min_age_ env.max_age_ env.no_age_categories_
          env.no_locations_ env.no_sociobehavioural_categories_ band
          pop).getD i (AgentVector.mk [])).agents_ = _
      have hlenb : (bucketsOf env.min_age_ env.max_age_
          env.no_age_categories_ env.no_locations_
          env.no_sociobehavioural_categories_ band pop).length ≤ i := by
        unfold bucketsOf
        simp only [List.length_map, List.length_range]
        omega
      rw [List.getD_eq_default _ _ hlenb]
  intro h p hp
  constructor
  · intro helig
    obtain ⟨hl, ha, hs⟩ := hin p (List.get?_mem hp) helig
    have hklt : keyOf env.no_age_categories_ env.no_locations_ band p <
        env.no_age_categories_ * env.no_locations_ *
          env.no_sociobehavioural_categories_ :=
      keyOf_lt _ _ _ _ _ _ ha hl hs
    constructor
    · rw [hbucket _, if_pos hklt]
      refine List.count_eq_one_of_mem (nodup_agentsFor _ _ _ _ _ _ _) ?_
      exact (mem_agentsFor _ _ _ _ _ _ _ _).mpr ⟨p, hp, helig, rfl⟩
    · intro i hne
      rw [hbucket i]
      by_cases hi : i < env.no_age_categories_ * env.no_locations_ *
          env.no_sociobehavioural_categories_
      · rw [if_pos hi]
        intro hmem
        rcases (mem_agentsFor _ _ _ _ _ _ _ _).mp hmem with ⟨p2, hp2, _, hk2⟩
        rw [hp] at hp2
        cases hp2
        exact hne hk2.symm
      · rw [if_neg hi]
        exact List.not_mem_nil h
  · intro hinel i
    rw [hbucket i]
    by_cases hi : i < env.no_age_categories_ * env.no_locations_ *
        env.no_sociobehavioural_categories_
    · rw [if_pos hi]
      intro hmem
      rcases (mem_agentsFor _ _ _ _ _ _ _ _).mp hmem with ⟨p2, hp2, he2, _⟩
      rw [hp] at hp2
      cases hp2
      rw [hinel] at he2
      cases he2
    · rw [if_neg hi]
      exact List.not_mem_nil h

/-- Witness for the C3 theorem at the concrete scenario: row 1 of the
population is eligible with key 0; it appears once in bucket 0 and not
in bucket 1. -/
theorem update_buckets_partition_witness :
    ((scenarioEnvAfter.female_agents_.getD 0 (AgentVector.mk [])).agents_.count 1
      = 1) ∧
    1 ∉ (scenarioEnvAfter.female_agents_.getD 1 (AgentVector.mk [])).agents_ := by
  have happ := update_buckets_partition scenarioEnv0 scenarioBand
    scenarioPolicy scenarioPop scenarioEnvAfter (by decide)
    scenario_update_eq 1 ⟨0, 20, kFemale, 0, 0, 0⟩ (by rfl)
  have hpart := happ.1 (by decide)
  exact ⟨hpart.1, hpart.2 1 (by decide)⟩

theorem getD_mem_of_lt {α : Type} (l : List α) (i : Nat) (d : α)
    (h : i < l.length) : l.getD i d ∈ l := by
  induction l generalizing i with
  | nil => simp at h
  | cons x xs ih =>
      cases i with
      | zero => simp
      | succ n =>
          have := ih n (by simpa using h)
          simpa using Or.inr this

/-- Claim C5: after a successful rebuild (with a nonnegative policy),
every row of the cumulative mixing table is monotonically
non-decreasing; if any location holds an eligible agent the row's final
entry equals 1 (so it is within 1e-9 of 1.0); and when every
per-location count is zero the row is degenerate and location sampling
against it fails rather than returning a location. -/
theorem update_mixing_rows (env : CategoricalEnvironment) (band : ℚ → Nat)
    (policy : List (List ℚ)) (pop : List Person) (e : CategoricalEnvironment)
    (hin : ∀ p ∈ pop, eligibleB env.min_age_ env.max_age_ p = true →
        p.location_ < env.no_locations_ ∧
        band p.age_ < env.no_age_categories_ ∧
        p.social_behaviour_factor_ < env.no_sociobehavioural_categories_)
    (hpol : ∀ row ∈ policy, ∀ x ∈ row, 0 ≤ x)
    (hupd : Update env band policy pop = .ok e) :
    ∀ i, i < env.no_locations_ →
      List.Chain' (· ≤ ·) (e.mate_location_distribution_.getD i []) ∧
      ((∃ j, j < env.no_locations_ ∧
          countLocIn e.female_agents_ env.no_age_categories_
            env.no_locations_ env.no_sociobehavioural_categories_ j ≠ 0) →
        |(e.mate_location_distribution_.getD i []).getLastD 0 - 1| ≤
          1 / 1000000000) ∧
      ((∀ j, j < env.no_locations_ →
          countLocIn e.female_agents_ env.no_age_categories_
            env.no_locations_ env.no_sociobehavioural_categories_ j = 0) →
        ∀ u : ℚ, SampleLocation e i u = .error .DegenerateMixingRow) := by
  have hcanon := update_ok env band policy pop hin
  rw [hupd] at hcanon
  have he := Except.ok.inj hcanon
  intro i hi
  have hrow : e.mate_location_distribution_.getD i [] =
      rowRebuild (policy.getD i [])
        ((List.range env.no_locations_).map (fun j =>
          countLocIn e.female_agents_ env.no_age_categories_
            env.no_locations_ env.no_sociobehavioural_categories_ j)) := by
    rw [he]
    show (tableOf env.min_age_ env.max_age_ env.no_age_categories_
        env.no_locations_ env.no_sociobehavioural_categories_ band policy
        pop).getD i [] = _
    unfold tableOf
    rw [getD_map_range _ _ _ _ hi]
  have hwrow : ∀ x ∈ policy.getD i [], 0 ≤ x := by
    by_cases hip : i < policy.length
    · exact hpol _ (getD_mem_of_lt policy i [] hip)
    · rw [List.getD_eq_default _ _ (by omega)]
      intro x hx
      cases hx
  refine ⟨?_, ?_, ?_⟩
  · rw [hrow]
    exact rowRebuild_chain _ _ hwrow
  · rintro ⟨j, hj, hc⟩
    have hmem : countLocIn e.female_agents_ env.no_age_categories_
        env.no_locations_ env.no_sociobehavioural_categories_ j ∈
        (List.range env.no_locations_).map (fun j =>
          countLocIn e.female_agents_ env.no_age_categories_
            env.no_locations_ env.no_sociobehavioural_categories_ j) :=
      List.mem_map.mpr ⟨j, List.mem_range.mpr hj, rfl⟩
    rw [hrow, rowRebuild_last _ _ hwrow ⟨_, hmem, hc⟩]
    norm_num
  · intro hall u
    have hzero : ∀ x ∈ rowRebuild (policy.getD i [])
        ((List.range env.no_locations_).map (fun j =>
          countLocIn e.female_agents_ env.no_age_categories_
            env.no_locations_ env.no_sociobehavioural_categories_ j)), x = 0 := by
      refine rowRebuild_degenerate _ _ ?_
      intro c hcm
      rcases List.mem_map.mp hcm with ⟨j, hjr, rfl⟩
      exact hall j (List.mem_range.mp hjr)
    have hAll : ((e.mate_location_distribution_.getD i []).all
        (fun c => decide (c = 0))) = true := by
      rw [hrow]
      exact List.all_eq_true.mpr
        (fun c hc => decide_eq_true (hzero c hc))
    simp only [SampleLocation]
    rw [hAll, if_pos rfl]

/-- Witness for the C5 theorem at the concrete scenario, row 0: the
chain, the final entry, and (vacuously false antecedent aside) the
count at location 0 is 3 ≠ 0, so the final entry is within 1e-9 of
1. -/
theorem update_mixing_rows_witness :
    List.Chain' (· ≤ ·)
      (scenarioEnvAfter.mate_location_distribution_.getD 0 []) ∧
    |(scenarioEnvAfter.mate_location_distribution_.getD 0 []).getLastD 0 - 1| ≤
      1 / 1000000000 := by
  have happ := update_mixing_rows scenarioEnv0 scenarioBand scenarioPolicy
    scenarioPop scenarioEnvAfter (by decide)
    (by
      intro row hrow x hx
      fin_cases hrow <;> fin_cases hx <;> norm_num)
    scenario_update_eq 0 (by decide)
  exact ⟨happ.1, happ.2.1 ⟨0, by decide, by decide⟩⟩

/-- Claim C9 counterexample: `SetMinAge` is part of the public
interface and does change the eligibility window after construction. -/
theorem setMinAge_changes_window :
    GetMinAge (SetMinAge scenarioEnv0 20) ≠ GetMinAge scenarioEnv0 := by
  decide

/-- Claim C9 (amended): the eligibility window is set by the
constructor, and apart from the two explicit public setters
`SetMinAge` / `SetMaxAge` — which do modify it — no other modelled
operation (`Update`, `Clear`) changes `min_age_` or `max_age_`. -/
theorem eligibility_window_setters_only (env : CategoricalEnvironment)
    (m1 m2 : Int) (band : ℚ → Nat) (policy : List (List ℚ))
    (pop : List Person) (e : CategoricalEnvironment)
    (hupd : Update env band policy pop = .ok e) :
    GetMinAge (mkCategoricalEnvironment m1 m2 1 1 1) = m1 ∧
    GetMaxAge (mkCategoricalEnvironment m1 m2 1 1 1) = m2 ∧
    GetMinAge (SetMinAge env m1) = m1 ∧
    GetMaxAge (SetMinAge env m1) = GetMaxAge env ∧
    GetMaxAge (SetMaxAge env m2) = m2 ∧
    GetMinAge (SetMaxAge env m2) = GetMinAge env ∧
    GetMinAge (CategoricalEnvironment.Clear env) = GetMinAge env ∧
    GetMaxAge (CategoricalEnvironment.Clear env) = GetMaxAge env ∧
    GetMinAge e = GetMinAge env ∧ GetMaxAge e = GetMaxAge env := by
  obtain ⟨g1, g2⟩ := update_frame env band policy pop e hupd
  exact ⟨rfl, rfl, rfl, rfl, rfl, rfl, rfl, rfl, g1, g2⟩

/-- Witness for the amended C9 theorem at the concrete scenario. -/
theorem eligibility_window_setters_only_witness :
    GetMinAge (mkCategoricalEnvironment 20 50 1 1 1) = 20 ∧
    GetMaxAge (mkCategoricalEnvironment 20 50 1 1 1) = 50 ∧
    GetMinAge (SetMinAge scenarioEnv0 20) = 20 ∧
    GetMaxAge (SetMinAge scenarioEnv0 20) = GetMaxAge scenarioEnv0 ∧
    GetMaxAge (SetMaxAge scenarioEnv0 50) = 50 ∧
    GetMinAge (SetMaxAge scenarioEnv0 50) = GetMinAge scenarioEnv0 ∧
    GetMinAge (CategoricalEnvironment.Clear scenarioEnv0) =
      GetMinAge scenarioEnv0 ∧
    GetMaxAge (CategoricalEnvironment.Clear scenarioEnv0) =
      GetMaxAge scenarioEnv0 ∧
    GetMinAge scenarioEnvAfter = GetMinAge scenarioEnv0 ∧
    GetMaxAge scenarioEnvAfter = GetMaxAge scenarioEnv0 :=
  eligibility_window_setters_only scenarioEnv0 20 50 scenarioBand
    scenarioPolicy scenarioPop scenarioEnvAfter scenario_update_eq

end bdm
